import Mathlib

/-!
Verification of the cartesian-tree library specification.

The repository is a Python wrapper over a native extension module
(`cartesian_tree._cartesian_tree`) that implements the mathematical core
(vectors, quaternions, rotations, isometries, the frame tree, poses, the
change-of-basis engine and the JSON serializer).  The native module is not
part of the source tree available here, so the core is modelled from the
specification (spec.md), and the Python wrapper layer together with the
test suite is used to pin concrete expectations.  Real numbers model the
IEEE-754 doubles of the implementation; the tolerance clauses of the spec
(1e-5 / 1e-9) are subsumed by exact equalities over ℝ wherever we prove
equalities.

The file is organised as: all definitions first, then the theorems.
-/

namespace CartesianTree

/-- Modelled from the spec: Vector3 is a triple (x, y, z) of reals (§3);
the native implementation of the value type is missing from the source
tree, only its Python wrapper is present. -/
@[ext]
structure Vector3 where
  x : ℝ
  y : ℝ
  z : ℝ

namespace Vector3

/-- Componentwise addition of vectors. -/
def add (a b : Vector3) : Vector3 := ⟨a.x + b.x, a.y + b.y, a.z + b.z⟩

instance : Add Vector3 := ⟨Vector3.add⟩

/-- Componentwise negation of a vector. -/
def neg (a : Vector3) : Vector3 := ⟨-a.x, -a.y, -a.z⟩

instance : Neg Vector3 := ⟨Vector3.neg⟩

/-- Modelled from the spec: the list view of a vector (§6). -/
def as_list (a : Vector3) : List ℝ := [a.x, a.y, a.z]

/-- Modelled from the spec: the tuple view of a vector (§6). -/
def as_tuple (a : Vector3) : ℝ × ℝ × ℝ := (a.x, a.y, a.z)

end Vector3

/-- Modelled from the spec: Quaternion is a pure data value (x, y, z, w)
(§3, §6); the native implementation is missing from the source tree, only
its Python wrapper (`helper.py` / the `quaternion` module) is present.
The constructor stores the four components as given. -/
@[ext]
structure Quaternion where
  x : ℝ
  y : ℝ
  z : ℝ
  w : ℝ

namespace Quaternion

/-- Modelled from the spec: the identity quaternion is (0,0,0,1) (§3). -/
def identity : Quaternion := ⟨0, 0, 0, 1⟩

/-- Hamilton product of two quaternions (the standard composition of
rotations stored as quaternions, §3). -/
def mul (a b : Quaternion) : Quaternion :=
  ⟨a.w * b.x + a.x * b.w + a.y * b.z - a.z * b.y,
   a.w * b.y - a.x * b.z + a.y * b.w + a.z * b.x,
   a.w * b.z + a.x * b.y - a.y * b.x + a.z * b.w,
   a.w * b.w - a.x * b.x - a.y * b.y - a.z * b.z⟩

instance : Mul Quaternion := ⟨Quaternion.mul⟩

/-- Conjugate of a quaternion; for a unit quaternion this is its inverse,
which is how the implementation realizes rotation inverses (§3). -/
def conj (a : Quaternion) : Quaternion := ⟨-a.x, -a.y, -a.z, a.w⟩

/-- Squared norm of a quaternion. -/
def normSq (a : Quaternion) : ℝ := a.x ^ 2 + a.y ^ 2 + a.z ^ 2 + a.w ^ 2

/-- Action of a (unit) quaternion on a vector: the vector part of
q · (v as pure quaternion) · conj q. -/
def act (q : Quaternion) (v : Vector3) : Vector3 :=
  let r := q.mul ((Quaternion.mk v.x v.y v.z 0).mul q.conj)
  ⟨r.x, r.y, r.z⟩

/-- Modelled from the spec: the list view x, y, z, w of a quaternion (§6). -/
def as_list (a : Quaternion) : List ℝ := [a.x, a.y, a.z, a.w]

/-- Modelled from the spec: the tuple view x, y, z, w of a quaternion (§6). -/
def as_tuple (a : Quaternion) : ℝ × ℝ × ℝ × ℝ := (a.x, a.y, a.z, a.w)

end Quaternion

/-- Modelled from the spec: an isometry is a rigid transformation
T = (t, R) with t a translation vector and R a rotation stored as a unit
quaternion (§3).  The native implementation is missing from the source
tree.  In exact real arithmetic the product of unit quaternions is unit,
so the spec's renormalization step (§4.4 numeric policy) is the identity
and is not modelled. -/
@[ext]
structure Isometry where
  translation : Vector3
  rotation : Quaternion

namespace Isometry

/-- Modelled from the spec: composition
(t₁,R₁)·(t₂,R₂) = (t₁ + R₁·t₂, R₁·R₂) (§3). -/
def mul (a b : Isometry) : Isometry :=
  ⟨a.translation + a.rotation.act b.translation, a.rotation * b.rotation⟩

instance : Mul Isometry := ⟨Isometry.mul⟩

/-- Modelled from the spec: inverse (t,R)⁻¹ = (−R⁻¹·t, R⁻¹) (§3); the
rotation inverse of a unit quaternion is its conjugate. -/
def inverse (a : Isometry) : Isometry :=
  ⟨-(a.rotation.conj.act a.translation), a.rotation.conj⟩

/-- Modelled from the spec: the identity isometry (§4.1). -/
def identity : Isometry := ⟨⟨0, 0, 0⟩, Quaternion.identity⟩

/-- Modelled from the spec: an isometry from a translation alone (§4.1). -/
def from_translation (v : Vector3) : Isometry := ⟨v, Quaternion.identity⟩

/-- Modelled from the spec: an isometry from a rotation alone (§4.1). -/
def from_rotation (q : Quaternion) : Isometry := ⟨⟨0, 0, 0⟩, q⟩

/-- Modelled from the spec: an isometry from both parts (§4.1). -/
def from_parts (v : Vector3) (q : Quaternion) : Isometry := ⟨v, q⟩

/-- Modelled from the spec: decomposition into (translation, rotation)
(§4.1). -/
def decompose (a : Isometry) : Vector3 × Quaternion :=
  (a.translation, a.rotation)

end Isometry

/-- Modelled from the spec: roll-pitch-yaw angles in radians, ZYX-intrinsic
convention (§3); the native implementation is missing from the source
tree, only its Python wrapper is present. -/
@[ext]
structure RPY where
  roll : ℝ
  pitch : ℝ
  yaw : ℝ

/-- Two-argument arctangent: the angle in (−π, π] of the point (x, y),
modelling the atan2 of the implementation language. -/
noncomputable def atan2 (y x : ℝ) : ℝ := Complex.arg (x + y * Complex.I)

namespace Rotation

/-- Modelled from the spec: the quaternion of a rotation about the x axis
by angle θ (the Rx factor of the ZYX-intrinsic convention, §3). -/
noncomputable def qx (θ : ℝ) : Quaternion :=
  ⟨Real.sin (θ / 2), 0, 0, Real.cos (θ / 2)⟩

/-- Modelled from the spec: the quaternion of a rotation about the y axis
by angle θ. -/
noncomputable def qy (θ : ℝ) : Quaternion :=
  ⟨0, Real.sin (θ / 2), 0, Real.cos (θ / 2)⟩

/-- Modelled from the spec: the quaternion of a rotation about the z axis
by angle θ. -/
noncomputable def qz (θ : ℝ) : Quaternion :=
  ⟨0, 0, Real.sin (θ / 2), Real.cos (θ / 2)⟩

/-- Modelled from the spec: `Rotation::from_rpy` builds the rotation
R = Rz(yaw)·Ry(pitch)·Rx(roll) as a unit quaternion (§3, §4.1); the
native implementation is missing from the source tree. -/
noncomputable def from_rpy (roll pitch yaw : ℝ) : Quaternion :=
  qz yaw * (qy pitch * qx roll)

/-- Modelled from the spec: `Rotation::to_rpy` uses the standard
two-branch quaternion-to-Euler formula with gimbal-lock handling at
|pitch| = π/2 and returns the canonical branch (§3, §4.1); the native
implementation is missing from the source tree. -/
noncomputable def to_rpy (q : Quaternion) : RPY :=
  let sinp := 2 * (q.w * q.y - q.z * q.x)
  { roll := atan2 (2 * (q.w * q.x + q.y * q.z)) (1 - 2 * (q.x ^ 2 + q.y ^ 2))
    pitch :=
      if 1 ≤ sinp then Real.pi / 2
      else if sinp ≤ -1 then -(Real.pi / 2)
      else Real.arcsin sinp
    yaw := atan2 (2 * (q.w * q.z + q.x * q.y)) (1 - 2 * (q.y ^ 2 + q.z ^ 2)) }

end Rotation

/-- Modelled from the spec: a frame is either a root (created by name; its
stored transformation exists but is semantically ignored, §3) or a child
of a parent frame located by a transformation relative to that parent
(§4.2).  Each non-root frame keeps a reference to its parent, so a frame
value carries its whole ancestor chain; the native implementation is
missing from the source tree. -/
inductive Frame where
  | root (name : String) (transformation : Isometry)
  | child (parent : Frame) (name : String) (transformation : Isometry)

namespace Frame

/-- Modelled from the spec: `Frame(name)` creates a root frame (§4.2). -/
def new (name : String) : Frame := .root name Isometry.identity

/-- Modelled from the spec: `add_child(name, translation, rotation)`
creates a child whose `transformation_to_parent` is the given isometry
(§4.2). -/
def add_child (f : Frame) (name : String) (t : Vector3) (r : Quaternion) :
    Frame := .child f name (Isometry.from_parts t r)

/-- The name of a frame. -/
def name : Frame → String
  | .root n _ => n
  | .child _ n _ => n

/-- Modelled from the spec: the stored transformation relative to the
parent (for a root it exists but is semantically ignored, §3). -/
def transformation_to_parent : Frame → Isometry
  | .root _ t => t
  | .child _ _ t => t

/-- Modelled from the spec: `parent()` is none for a root (§4.2). -/
def parent : Frame → Option Frame
  | .root _ _ => none
  | .child p _ _ => some p

/-- Modelled from the spec: root has depth 0, each child has
depth = parent.depth + 1 (§3). -/
def depth : Frame → Nat
  | .root _ _ => 0
  | .child p _ _ => p.depth + 1

/-- Modelled from the spec: `root()` ascends parent links (§4.2). -/
def rootFrame : Frame → Frame
  | .root n t => .root n t
  | .child p _ _ => p.rootFrame

/-- The chain of strict ancestors of a frame, nearest parent first; its
length is the length of the path from the frame to its root. -/
def ancestors : Frame → List Frame
  | .root _ _ => []
  | .child p _ _ => p :: p.ancestors

/-- Modelled from the spec: `set(translation, rotation)` replaces the
stored transformation (§4.2). -/
def setTransformation : Frame → Isometry → Frame
  | .root n _, t => .root n t
  | .child p n _, t => .child p n t

/-- Modelled from the spec: `apply_in_parent_frame(iso)` replaces the
stored transformation with iso ∘ transformation_to_parent (§4.2). -/
def apply_in_parent_frame (f : Frame) (iso : Isometry) : Frame :=
  f.setTransformation (iso * f.transformation_to_parent)

/-- Modelled from the spec: `apply_in_local_frame(iso)` replaces the
stored transformation with transformation_to_parent ∘ iso (§4.2). -/
def apply_in_local_frame (f : Frame) (iso : Isometry) : Frame :=
  f.setTransformation (f.transformation_to_parent * iso)

/-- Modelled from the spec: the change-of-basis engine walks from a frame
to the root composing the `transformation_to_parent` isometries, yielding
T_root←A (§4.4, step 1); the root's own stored transformation is not part
of the chain. -/
def toRoot : Frame → Isometry
  | .root _ _ => Isometry.identity
  | .child p _ t => p.toRoot * t

/-- Modelled from the spec: the change-of-basis isometry
T_B←A = (T_root←B)⁻¹ ∘ T_root←A (§4.4, step 3). -/
def changeOfBasis (a b : Frame) : Isometry := b.toRoot.inverse * a.toRoot

end Frame

/-- Modelled from the spec: a pose is a rigid transformation anchored in a
specific frame (§3); the native implementation is missing from the source
tree. -/
structure Pose where
  frame : Frame
  transformation : Isometry

namespace Pose

/-- Modelled from the spec: `set(translation, rotation)` replaces the
pose's transformation (§4.3). -/
def setTransformation (p : Pose) (t : Isometry) : Pose := ⟨p.frame, t⟩

/-- Modelled from the spec: `apply_in_parent_frame(iso)` sets
transformation ← iso ∘ transformation (§4.3). -/
def apply_in_parent_frame (p : Pose) (iso : Isometry) : Pose :=
  p.setTransformation (iso * p.transformation)

/-- Modelled from the spec: `apply_in_local_frame(iso)` sets
transformation ← transformation ∘ iso (§4.3). -/
def apply_in_local_frame (p : Pose) (iso : Isometry) : Pose :=
  p.setTransformation (p.transformation * iso)

/-- Modelled from the spec: `in_frame(target_frame)` returns a new pose
anchored in the target frame whose transformation is
C ∘ transformation with C the change-of-basis isometry from the pose's
frame to the target (§4.3, §4.4). -/
def in_frame (p : Pose) (target : Frame) : Pose :=
  ⟨target, Frame.changeOfBasis p.frame target * p.transformation⟩

end Pose

namespace Frame

/-- Modelled from the spec: `add_pose(translation, rotation)` constructs a
pose anchored in this frame with the given isometry (§4.2). -/
def add_pose (f : Frame) (t : Vector3) (r : Quaternion) : Pose :=
  ⟨f, Isometry.from_parts t r⟩

/-- Modelled from the spec: `calibrate_child(name, translation, rotation,
reference_pose)` creates a child whose `transformation_to_parent` is
R ∘ P ∘ K, with R the change-of-basis isometry from the reference pose's
frame to this frame, P the reference pose's transformation and K the input
isometry (§4.2). -/
def calibrate_child (f : Frame) (name : String) (t : Vector3)
    (r : Quaternion) (reference_pose : Pose) : Frame :=
  .child f name
    (changeOfBasis reference_pose.frame f * reference_pose.transformation *
      Isometry.from_parts t r)

end Frame

/-- Modelled from the spec: the downward view of the frame tree that the
serializer traverses: a name, the stored transformation, and the ordered
children (§3, §4.5); the native implementation is missing from the source
tree. -/
inductive FrameTree where
  | node (name : String) (transformation : Isometry)
      (children : List FrameTree)

namespace FrameTree

/-- The name of a tree node. -/
def name : FrameTree → String
  | .node n _ _ => n

/-- The stored transformation of a tree node. -/
def transformation : FrameTree → Isometry
  | .node _ t _ => t

/-- The ordered children of a tree node. -/
def children : FrameTree → List FrameTree
  | .node _ _ cs => cs

end FrameTree

/-- Modelled from the spec: the parsed JSON document of the serializer:
one object per frame with name, translation, rotation (quaternion form)
and ordered children (§4.5). -/
inductive ConfigDoc where
  | node (name : String) (translation : Vector3) (rotation : Quaternion)
      (children : List ConfigDoc)

namespace ConfigDoc

/-- The name field of a document node. -/
def name : ConfigDoc → String
  | .node n _ _ _ => n

/-- The children array of a document node. -/
def children : ConfigDoc → List ConfigDoc
  | .node _ _ _ cs => cs

end ConfigDoc

mutual

/-- Modelled from the spec: `to_json` performs a pre-order traversal and
emits one document object per frame, carrying the decomposed
(translation, rotation) of `transformation_to_parent` (§4.5). -/
def to_json : FrameTree → ConfigDoc
  | .node n t cs => .node n t.translation t.rotation (to_jsonChildren cs)

/-- The pre-order serialization of an ordered list of children (§4.5). -/
def to_jsonChildren : List FrameTree → List ConfigDoc
  | [] => []
  | c :: cs => to_json c :: to_jsonChildren cs

end

mutual

/-- Modelled from the spec: ingesting a matched document node overwrites
the node's `transformation_to_parent` with the document's (translation,
rotation) and recurses into the children (§4.5).  Only called on non-root
nodes that were matched by name. -/
def applyNode : FrameTree → ConfigDoc → FrameTree
  | .node n _ cs, .node _ tr rot dcs =>
      .node n (Isometry.from_parts tr rot) (applyChildren cs dcs)

/-- Modelled from the spec: each tree child is matched against the
document children by name; a matched child is overwritten and recursed
into, a tree child not mentioned in the document is left unchanged, and a
document child matching no tree child is silently skipped (§4.5). -/
def applyChildren : List FrameTree → List ConfigDoc → List FrameTree
  | [], _ => []
  | c :: cs, dcs =>
      (match dcs.find? (fun d => d.name == c.name) with
        | some d => applyNode c d
        | none => c) :: applyChildren cs dcs

end

/-- Modelled from the spec: the error kind of `apply_config`: malformed
JSON, missing required fields, or a document root name that differs from
the receiving frame's name (§7). -/
inductive ConfigMismatch where
  | malformed
  | rootNameMismatch

/-- Modelled from the spec: `apply_config` parses the document (a parse
failure or missing required fields is modelled as a `none` input), matches
the document root against the receiver by name, fails with ConfigMismatch
on a mismatch, and otherwise updates the matched children while leaving
the root's stored transformation untouched (§4.5). -/
def apply_config (f : FrameTree) (doc : Option ConfigDoc) :
    Except ConfigMismatch FrameTree :=
  match doc with
  | none => .error .malformed
  | some d =>
      if d.name = f.name then
        .ok (.node f.name f.transformation
          (applyChildren f.children d.children))
      else .error .rootNameMismatch

/-- The observable tree after a call to `apply_config`: the updated tree
on success, the untouched receiver on failure (§7, atomicity). -/
def apply_config_state (f : FrameTree) (doc : Option ConfigDoc) :
    FrameTree :=
  match apply_config f doc with
  | .ok r => r
  | .error _ => f

/-- Two trees are topologically identical when they have the same names
and the same child structure, with arbitrary transformations (§8, P9). -/
inductive SameTopology : FrameTree → FrameTree → Prop where
  | node : ∀ (n : String) (t u : Isometry) (cs us : List FrameTree),
      List.Forall₂ SameTopology cs us →
      SameTopology (.node n t cs) (.node n u us)

/-- Sibling names are unique throughout the tree (§3, the serializer's
round-trip assumption). -/
inductive UniqueSiblingNames : FrameTree → Prop where
  | node : ∀ (n : String) (t : Isometry) (cs : List FrameTree),
      (cs.map FrameTree.name).Nodup →
      (∀ c ∈ cs, UniqueSiblingNames c) →
      UniqueSiblingNames (.node n t cs)

/-- The frame tree of concrete scenario 5 of the spec (§8): base. -/
def base5 : Frame := Frame.new "base"

/-- Scenario 5 (§8): frame1, a child of base at ((1,1,1), identity). -/
def frame1 : Frame := base5.add_child "frame1" ⟨1, 1, 1⟩ Quaternion.identity

/-- Scenario 5 (§8): frame2, a child of base at ((−2,0,0), Rz(90°)). -/
noncomputable def frame2 : Frame :=
  base5.add_child "frame2" ⟨-2, 0, 0⟩
    (Rotation.from_rpy 0 0 (Real.pi / 2))

/-- Scenario 5 (§8): the pose in frame1 at ((0,0,0), identity). -/
def pose5 : Pose := frame1.add_pose ⟨0, 0, 0⟩ Quaternion.identity

/-- The frame tree of concrete scenario 6 of the spec (§8): base. -/
def base6 : Frame := Frame.new "base"

/-- Scenario 6 (§8): the reference child of base at ((1,1,1), identity). -/
def reference6 : Frame :=
  base6.add_child "reference" ⟨1, 1, 1⟩ Quaternion.identity

/-- Scenario 6 (§8): the reference pose at ((1,1,1), identity). -/
def refPose6 : Pose := reference6.add_pose ⟨1, 1, 1⟩ Quaternion.identity

/-- Scenario 6 (§8): the calibrated child of base. -/
def calibrated6 : Frame :=
  base6.calibrate_child "calibrated" ⟨0, 0, 0⟩ Quaternion.identity refPose6

/-- The serialization round-trip source tree of the test suite
(test_serialization): root → child1 ((1,0,0), identity) → child2
((0,1,0), Rz(90°)). -/
noncomputable def rtTreeA : FrameTree :=
  .node "root" Isometry.identity
    [.node "child1" (Isometry.from_parts ⟨1, 0, 0⟩ Quaternion.identity)
      [.node "child2"
        (Isometry.from_parts ⟨0, 1, 0⟩ (Rotation.from_rpy 0 0 (Real.pi / 2)))
        []]]

/-- The topologically identical target tree of the round-trip test, with
different transformations ((2,0,0) and (0,2,0)). -/
noncomputable def rtTreeB : FrameTree :=
  .node "root" Isometry.identity
    [.node "child1" (Isometry.from_parts ⟨2, 0, 0⟩ Quaternion.identity)
      [.node "child2"
        (Isometry.from_parts ⟨0, 2, 0⟩ (Rotation.from_rpy 0 0 (Real.pi / 2)))
        []]]

/-- A one-node tree used to exercise the apply_config error contract. -/
def cfgRoot : FrameTree := .node "root" Isometry.identity []

namespace Vector3

theorem add_eq (a b : Vector3) : a + b = a.add b := rfl

theorem neg_eq (a : Vector3) : -a = a.neg := rfl

theorem neg_add_swap (a b : Vector3) : -(a + b) = -b + -a := by
  cases a; cases b
  simp only [add_eq, add, neg_eq, neg, Vector3.mk.injEq]
  refine ⟨?_, ?_, ?_⟩ <;> ring

theorem add_neg_self (a : Vector3) : a + -a = ⟨0, 0, 0⟩ := by
  cases a
  simp only [add_eq, add, neg_eq, neg, Vector3.mk.injEq]
  refine ⟨?_, ?_, ?_⟩ <;> ring

theorem neg_add_self (a : Vector3) : -a + a = ⟨0, 0, 0⟩ := by
  cases a
  simp only [add_eq, add, neg_eq, neg, Vector3.mk.injEq]
  refine ⟨?_, ?_, ?_⟩ <;> ring

end Vector3

namespace Quaternion

theorem mulQ_eq (a b : Quaternion) : a * b = a.mul b := rfl

theorem act_mul (p q : Quaternion) (v : Vector3) :
    (p * q).act v = p.act (q.act v) := by
  cases p; cases q; cases v
  simp only [mulQ_eq, act, mul, conj, Vector3.mk.injEq]
  refine ⟨?_, ?_, ?_⟩ <;> ring

theorem act_identity (v : Vector3) : identity.act v = v := by
  cases v
  simp only [act, identity, mul, conj, Vector3.mk.injEq]
  refine ⟨?_, ?_, ?_⟩ <;> ring

theorem mul_conj (q : Quaternion) : q * q.conj = ⟨0, 0, 0, q.normSq⟩ := by
  cases q
  simp only [mulQ_eq, mul, conj, normSq, Quaternion.mk.injEq]
  refine ⟨?_, ?_, ?_, ?_⟩ <;> ring

theorem conj_mul (q : Quaternion) : q.conj * q = ⟨0, 0, 0, q.normSq⟩ := by
  cases q
  simp only [mulQ_eq, mul, conj, normSq, Quaternion.mk.injEq]
  refine ⟨?_, ?_, ?_, ?_⟩ <;> ring

theorem conj_mul_conj (p q : Quaternion) :
    (p * q).conj = q.conj * p.conj := by
  cases p; cases q
  simp only [mulQ_eq, mul, conj, Quaternion.mk.injEq]
  refine ⟨?_, ?_, ?_, ?_⟩ <;> ring

theorem act_scalar (s : ℝ) (v : Vector3) :
    (Quaternion.mk 0 0 0 s).act v =
      ⟨s ^ 2 * v.x, s ^ 2 * v.y, s ^ 2 * v.z⟩ := by
  cases v
  simp only [act, mul, conj, Vector3.mk.injEq]
  refine ⟨?_, ?_, ?_⟩ <;> ring

theorem act_add (q : Quaternion) (v w : Vector3) :
    q.act (v + w) = q.act v + q.act w := by
  cases q; cases v; cases w
  simp only [act, mul, conj, Vector3.add_eq, Vector3.add, Vector3.mk.injEq]
  refine ⟨?_, ?_, ?_⟩ <;> ring

theorem act_neg (q : Quaternion) (v : Vector3) :
    q.act (-v) = -(q.act v) := by
  cases q; cases v
  simp only [act, mul, conj, Vector3.neg_eq, Vector3.neg, Vector3.mk.injEq]
  refine ⟨?_, ?_, ?_⟩ <;> ring

theorem conj_act_act (q : Quaternion) (v : Vector3) (h : q.normSq = 1) :
    q.conj.act (q.act v) = v := by
  have h2 : q.conj * q = ⟨0, 0, 0, 1⟩ := by rw [conj_mul, h]
  rw [← act_mul, h2]
  cases v
  rw [act_scalar]
  norm_num

theorem act_conj_act (q : Quaternion) (v : Vector3) (h : q.normSq = 1) :
    q.act (q.conj.act v) = v := by
  have h2 : q * q.conj = ⟨0, 0, 0, 1⟩ := by rw [mul_conj, h]
  rw [← act_mul, h2]
  cases v
  rw [act_scalar]
  norm_num

end Quaternion

namespace Isometry

theorem mulI_eq (a b : Isometry) : a * b = a.mul b := rfl

theorem identity_mul (a : Isometry) : identity * a = a := by
  cases' a with t q
  cases' t with ax ay az
  cases' q with qx qy qz qw
  simp only [mulI_eq, mul, identity, Quaternion.mulQ_eq, Quaternion.mul,
    Quaternion.identity, Quaternion.act, Quaternion.conj, Vector3.add_eq,
    Vector3.add, Isometry.mk.injEq, Vector3.mk.injEq, Quaternion.mk.injEq]
  refine ⟨⟨?_, ?_, ?_⟩, ?_, ?_, ?_, ?_⟩ <;> ring

theorem mul_identity (a : Isometry) : a * identity = a := by
  cases' a with t q
  cases' t with ax ay az
  cases' q with qx qy qz qw
  simp only [mulI_eq, mul, identity, Quaternion.mulQ_eq, Quaternion.mul,
    Quaternion.identity, Quaternion.act, Quaternion.conj, Vector3.add_eq,
    Vector3.add, Isometry.mk.injEq, Vector3.mk.injEq, Quaternion.mk.injEq]
  refine ⟨⟨?_, ?_, ?_⟩, ?_, ?_, ?_, ?_⟩ <;> ring

theorem mul_inverse_self (a : Isometry) (h : a.rotation.normSq = 1) :
    a * a.inverse = identity := by
  apply Isometry.ext
  · show a.translation + a.rotation.act (-(a.rotation.conj.act a.translation))
      = identity.translation
    rw [Quaternion.act_neg, Quaternion.act_conj_act _ _ h,
      Vector3.add_neg_self]
    rfl
  · show a.rotation * a.rotation.conj = identity.rotation
    rw [Quaternion.mul_conj, h]
    rfl

theorem inverse_mul_self (a : Isometry) (h : a.rotation.normSq = 1) :
    a.inverse * a = identity := by
  apply Isometry.ext
  · show -(a.rotation.conj.act a.translation)
        + a.rotation.conj.act a.translation = identity.translation
    rw [Vector3.neg_add_self]
    rfl
  · show a.rotation.conj * a.rotation = identity.rotation
    rw [Quaternion.conj_mul, h]
    rfl

theorem mul_inverse_rev (a b : Isometry) (h : a.rotation.normSq = 1) :
    (a * b).inverse = b.inverse * a.inverse := by
  apply Isometry.ext
  · show -((a.rotation * b.rotation).conj.act
        (a.translation + a.rotation.act b.translation))
      = -(b.rotation.conj.act b.translation)
        + b.rotation.conj.act (-(a.rotation.conj.act a.translation))
    rw [Quaternion.conj_mul_conj, Quaternion.act_mul, Quaternion.act_add,
      Quaternion.conj_act_act _ _ h, Quaternion.act_add,
      Quaternion.act_neg, Vector3.neg_add_swap]
  · show (a.rotation * b.rotation).conj = b.rotation.conj * a.rotation.conj
    exact Quaternion.conj_mul_conj _ _

end Isometry

theorem atan2_mem_Ioc (y x : ℝ) :
    atan2 y x ∈ Set.Ioc (-Real.pi) Real.pi :=
  Complex.arg_mem_Ioc _

theorem atan2_cos_sin (c : ℝ) (θ : ℝ) (hc : 0 < c)
    (hθ : θ ∈ Set.Ioc (-Real.pi) Real.pi) :
    atan2 (Real.sin θ * c) (Real.cos θ * c) = θ := by
  unfold atan2
  have hmul : ((Real.cos θ * c : ℝ) : ℂ) + (Real.sin θ * c : ℝ) * Complex.I
      = (c : ℝ) * (Real.cos θ + Real.sin θ * Complex.I) := by
    push_cast
    ring
  rw [hmul, Complex.arg_real_mul _ hc, Complex.ofReal_cos, Complex.ofReal_sin,
    Complex.arg_cos_add_sin_mul_I hθ]

theorem atan2_zero_one : atan2 0 1 = 0 := by
  unfold atan2
  norm_num [Complex.arg_one]

theorem Rotation.from_rpy_eq (r p y : ℝ) :
    Rotation.from_rpy r p y =
      ⟨Real.sin (r / 2) * Real.cos (p / 2) * Real.cos (y / 2)
         - Real.cos (r / 2) * Real.sin (p / 2) * Real.sin (y / 2),
       Real.cos (r / 2) * Real.sin (p / 2) * Real.cos (y / 2)
         + Real.sin (r / 2) * Real.cos (p / 2) * Real.sin (y / 2),
       Real.cos (r / 2) * Real.cos (p / 2) * Real.sin (y / 2)
         - Real.sin (r / 2) * Real.sin (p / 2) * Real.cos (y / 2),
       Real.cos (r / 2) * Real.cos (p / 2) * Real.cos (y / 2)
         + Real.sin (r / 2) * Real.sin (p / 2) * Real.sin (y / 2)⟩ := by
  simp only [Rotation.from_rpy, Rotation.qx, Rotation.qy, Rotation.qz,
    Quaternion.mulQ_eq, Quaternion.mul, Quaternion.mk.injEq]
  refine ⟨?_, ?_, ?_, ?_⟩ <;> ring

theorem SameTopology.name_eq {t u : FrameTree} (h : SameTopology t u) :
    t.name = u.name := by
  cases h; rfl

theorem to_json_name (t : FrameTree) : (to_json t).name = t.name := by
  cases t; rfl

theorem forall₂_name_eq {ts us : List FrameTree}
    (h : List.Forall₂ SameTopology ts us) :
    ts.map FrameTree.name = us.map FrameTree.name := by
  induction h with
  | nil => rfl
  | cons h _ ih => simp [List.map_cons, h.name_eq, ih]

theorem applyChildren_skip {cs : List FrameTree} {d : ConfigDoc}
    {ds : List ConfigDoc} (h : ∀ c ∈ cs, d.name ≠ c.name) :
    applyChildren cs (d :: ds) = applyChildren cs ds := by
  induction cs with
  | nil => rfl
  | cons c cs ih =>
      have hd : (d.name == c.name) = false := by
        simp [h c (List.mem_cons_self c cs)]
      simp only [applyChildren, List.find?, hd]
      rw [ih (fun c' hc' => h c' (List.mem_cons_of_mem c hc'))]

theorem applyChildren_length (cs : List FrameTree) (dcs : List ConfigDoc) :
    (applyChildren cs dcs).length = cs.length := by
  induction cs with
  | nil => rfl
  | cons c cs ih =>
      simp only [applyChildren, List.length_cons, ih]

theorem mem_applyChildren_of_unmatched {c : FrameTree} {cs : List FrameTree}
    {dcs : List ConfigDoc} (hc : c ∈ cs)
    (h : ∀ dc ∈ dcs, dc.name ≠ c.name) : c ∈ applyChildren cs dcs := by
  induction cs with
  | nil => cases hc
  | cons c' cs ih =>
      rcases List.mem_cons.mp hc with hceq | hmem
      · subst hceq
        have hfind : dcs.find? (fun d => d.name == c.name) = none := by
          rw [List.find?_eq_none]
          intro d hd
          simp [h d hd]
        simp only [applyChildren, hfind]
        exact List.mem_cons_self _ _
      · exact List.mem_cons_of_mem _ (ih hmem)

mutual

theorem applyNode_to_json (t u : FrameTree) (h : SameTopology t u)
    (hu : UniqueSiblingNames t) : applyNode u (to_json t) = t := by
  cases t with
  | node n ti cs =>
      cases u with
      | node m ui us =>
          have hnm : n = m := by cases h; rfl
          have hrel : List.Forall₂ SameTopology cs us := by cases h; assumption
          have hnodup : (cs.map FrameTree.name).Nodup := by
            cases hu; assumption
          have hucs : ∀ c ∈ cs, UniqueSiblingNames c := by cases hu; assumption
          subst hnm
          have hc := applyChildren_to_json cs us hrel hnodup hucs
          cases ti
          simp only [to_json, applyNode, Isometry.from_parts, hc]

theorem applyChildren_to_json (ts us : List FrameTree)
    (h : List.Forall₂ SameTopology ts us)
    (hnodup : (ts.map FrameTree.name).Nodup)
    (hu : ∀ c ∈ ts, UniqueSiblingNames c) :
    applyChildren us (to_jsonChildren ts) = ts := by
  cases h with
  | nil => rfl
  | @cons t u ts' us' h1 hrest =>
      simp only [to_jsonChildren, applyChildren]
      have hname : ((to_json t).name == u.name) = true := by
        simp [to_json_name, h1.name_eq]
      have hnotin : t.name ∉ ts'.map FrameTree.name := by
        simp only [List.map_cons, List.nodup_cons] at hnodup
        exact hnodup.1
      have hskip : ∀ c ∈ us', (to_json t).name ≠ c.name := by
        intro c hc hceq
        apply hnotin
        rw [to_json_name] at hceq
        rw [forall₂_name_eq hrest, hceq]
        exact List.mem_map_of_mem FrameTree.name hc
      rw [applyChildren_skip hskip]
      have hfind : List.find? (fun d => d.name == u.name)
          (to_json t :: to_jsonChildren ts') = some (to_json t) := by
        simp only [List.find?, hname]
      rw [hfind]
      have hnodup' : (ts'.map FrameTree.name).Nodup := by
        simp only [List.map_cons, List.nodup_cons] at hnodup
        exact hnodup.2
      show applyNode u (to_json t) :: applyChildren us' (to_jsonChildren ts')
          = t :: ts'
      rw [applyNode_to_json t u h1 (hu t (List.mem_cons_self t ts'))]
      rw [applyChildren_to_json ts' us' hrest hnodup'
        (fun c hc => hu c (List.mem_cons_of_mem t hc))]

end

/-- C2: serializer round-trip: for every tree with unique sibling names,
letting J = root.to_json(), applying J to any topologically identical tree
(same frame names and child structure, arbitrary transformations) succeeds
and makes every non-root frame's transformation_to_parent equal the
corresponding original frame's transformation (exactly, hence within
tolerance); the root keeps its own stored transformation. -/
theorem serializer_round_trip (T U : FrameTree) (h : SameTopology T U)
    (hu : UniqueSiblingNames T) :
    apply_config U (some (to_json T)) =
      Except.ok (FrameTree.node T.name U.transformation T.children) := by
  cases T with
  | node n t cs =>
      cases U with
      | node m ui us =>
          have hnm : n = m := by cases h; rfl
          subst hnm
          have hrel : List.Forall₂ SameTopology cs us := by cases h; assumption
          have hnodup : (cs.map FrameTree.name).Nodup := by
            cases hu; assumption
          have hucs : ∀ c ∈ cs, UniqueSiblingNames c := by cases hu; assumption
          simp only [apply_config, to_json, ConfigDoc.name, FrameTree.name,
            ConfigDoc.children, FrameTree.children, FrameTree.transformation]
          rw [if_pos trivial,
            applyChildren_to_json cs us hrel hnodup hucs]

/-- Witness for C2: the concrete trees of the test suite's serialization
round-trip satisfy the hypotheses, and applying the serialized source to
the target restores the source's child transformations. -/
theorem serializer_round_trip_witness :
    apply_config rtTreeB (some (to_json rtTreeA)) =
      Except.ok (FrameTree.node rtTreeA.name rtTreeB.transformation
        rtTreeA.children) := by
  have htopo : SameTopology rtTreeA rtTreeB := by
    unfold rtTreeA rtTreeB
    exact .node _ _ _ _ _
      (.cons (.node _ _ _ _ _
        (.cons (.node _ _ _ _ _ .nil) .nil)) .nil)
  have huniq : UniqueSiblingNames rtTreeA := by
    unfold rtTreeA
    refine .node _ _ _ (by simp) ?_
    intro c hc
    simp only [List.mem_singleton] at hc
    subst hc
    refine .node _ _ _ (by simp) ?_
    intro c hc
    simp only [List.mem_singleton] at hc
    subst hc
    refine .node _ _ _ (by simp) ?_
    intro c hc
    simp at hc
  exact serializer_round_trip rtTreeA rtTreeB htopo huniq

/-- C4: apply-delta laws: for every Frame or Pose with stored isometry T₀
and every isometry T, apply_in_parent_frame(T) stores T ∘ T₀ and
apply_in_local_frame(T) stores T₀ ∘ T; Frame and Pose obey identical
semantics for the two operations. -/
theorem apply_delta_laws (F : Frame) (P : Pose) (T : Isometry) :
    (F.apply_in_parent_frame T).transformation_to_parent
        = T * F.transformation_to_parent ∧
    (F.apply_in_local_frame T).transformation_to_parent
        = F.transformation_to_parent * T ∧
    (P.apply_in_parent_frame T).transformation = T * P.transformation ∧
    (P.apply_in_local_frame T).transformation = P.transformation * T := by
  refine ⟨?_, ?_, rfl, rfl⟩ <;> cases F <;> rfl

/-- C5: to_rpy returns the canonical branch: pitch lies in [−π/2, π/2]
and roll and yaw lie in (−π, π]. -/
theorem to_rpy_canonical_branch (q : Quaternion) :
    -(Real.pi / 2) ≤ (Rotation.to_rpy q).pitch ∧
    (Rotation.to_rpy q).pitch ≤ Real.pi / 2 ∧
    (Rotation.to_rpy q).roll ∈ Set.Ioc (-Real.pi) Real.pi ∧
    (Rotation.to_rpy q).yaw ∈ Set.Ioc (-Real.pi) Real.pi := by
  have hpi := Real.pi_pos
  have hp : -(Real.pi / 2) ≤ (Rotation.to_rpy q).pitch ∧
      (Rotation.to_rpy q).pitch ≤ Real.pi / 2 := by
    simp only [Rotation.to_rpy]
    split
    · exact ⟨by linarith, le_refl _⟩
    · split
      · exact ⟨le_refl _, by linarith⟩
      · exact ⟨Real.neg_pi_div_two_le_arcsin _, Real.arcsin_le_pi_div_two _⟩
  exact ⟨hp.1, hp.2, atan2_mem_Ioc _ _, atan2_mem_Ioc _ _⟩

/-- C7: isometry group laws: the composition and inverse formulas of the
spec, the contravariant inverse of a product, and inverse cancellation on
both sides (exactly, hence within 1e-9). -/
theorem isometry_group_laws (T U : Isometry)
    (hT : T.rotation.normSq = 1) (hU : U.rotation.normSq = 1) :
    T * U = ⟨T.translation + T.rotation.act U.translation,
             T.rotation * U.rotation⟩ ∧
    T.inverse = ⟨-(T.rotation.conj.act T.translation), T.rotation.conj⟩ ∧
    (T * U).inverse = U.inverse * T.inverse ∧
    U.inverse * U = Isometry.identity ∧
    T * T.inverse = Isometry.identity ∧
    T.inverse * T = Isometry.identity :=
  ⟨rfl, rfl, Isometry.mul_inverse_rev T U hT,
   Isometry.inverse_mul_self U hU,
   Isometry.mul_inverse_self T hT, Isometry.inverse_mul_self T hT⟩

/-- Witness for C7: the laws instantiated at the concrete unit-rotation
isometries ((1,2,3), identity) and ((4,5,6), identity). -/
theorem isometry_group_laws_witness :
    Isometry.from_parts ⟨1, 2, 3⟩ Quaternion.identity *
        (Isometry.from_parts ⟨1, 2, 3⟩ Quaternion.identity).inverse =
      Isometry.identity :=
  (isometry_group_laws
    (Isometry.from_parts ⟨1, 2, 3⟩ Quaternion.identity)
    (Isometry.from_parts ⟨4, 5, 6⟩ Quaternion.identity)
    (by norm_num [Isometry.from_parts, Quaternion.identity,
      Quaternion.normSq])
    (by norm_num [Isometry.from_parts, Quaternion.identity,
      Quaternion.normSq])).2.2.2.2.1

/-- C8: apply_config error contract: the call fails with ConfigMismatch
exactly when the document is malformed (modelled as a `none` parse result)
or the document root's name differs from the receiver's; on failure the
observable tree is unchanged; on success the root's name and stored
transformation are untouched, no topology is created or destroyed, and a
tree child matched by no document child is left unchanged (document
children matching no tree child are skipped and never an error). -/
theorem apply_config_contract (f : FrameTree) (doc : Option ConfigDoc) :
    ((∃ e, apply_config f doc = .error e) ↔
        doc = none ∨ ∃ d, doc = some d ∧ d.name ≠ f.name) ∧
    ((∃ e, apply_config f doc = .error e) → apply_config_state f doc = f) ∧
    (∀ d r, doc = some d → apply_config f doc = .ok r →
      r.name = f.name ∧ r.transformation = f.transformation ∧
      r.children = applyChildren f.children d.children ∧
      r.children.length = f.children.length ∧
      (∀ c ∈ f.children, (∀ dc ∈ d.children, dc.name ≠ c.name) →
        c ∈ r.children)) := by
  refine ⟨?_, ?_, ?_⟩
  · cases doc with
    | none => exact ⟨fun _ => Or.inl rfl, fun _ => ⟨.malformed, rfl⟩⟩
    | some d =>
        by_cases hname : d.name = f.name
        · constructor
          · rintro ⟨e, he⟩
            simp only [apply_config, if_pos hname] at he
            exact Except.noConfusion he
          · rintro (hn | ⟨d', hd', hne⟩)
            · cases hn
            · cases hd'
              exact absurd hname hne
        · constructor
          · intro _
            exact Or.inr ⟨d, rfl, hname⟩
          · intro _
            exact ⟨.rootNameMismatch, by
              simp only [apply_config, if_neg hname]⟩
  · rintro ⟨e, he⟩
    unfold apply_config_state
    rw [he]
  · rintro d r rfl hok
    simp only [apply_config] at hok
    by_cases hname : d.name = f.name
    · rw [if_pos hname] at hok
      cases hok
      refine ⟨rfl, rfl, rfl, applyChildren_length _ _, ?_⟩
      intro c hc hdc
      exact mem_applyChildren_of_unmatched hc hdc
    · rw [if_neg hname] at hok
      cases hok

/-- Witness for C8: on the concrete one-node tree, a malformed document
makes apply_config fail and leaves the observable tree unchanged. -/
theorem apply_config_contract_witness :
    apply_config_state cfgRoot none = cfgRoot :=
  (apply_config_contract cfgRoot none).2.1 ⟨.malformed, rfl⟩

/-- C9: depth invariant: a root has depth 0 and no parent, add_child
assigns depth = parent.depth + 1, and every frame's depth equals the
length of the path from the frame to its root. -/
theorem depth_invariant :
    (∀ n : String, (Frame.new n).depth = 0 ∧ (Frame.new n).parent = none) ∧
    (∀ (f : Frame) (n : String) (t : Vector3) (r : Quaternion),
      (f.add_child n t r).depth = f.depth + 1) ∧
    (∀ f : Frame, f.depth = f.ancestors.length) := by
  refine ⟨fun n => ⟨rfl, rfl⟩, fun f n t r => rfl, ?_⟩
  intro f
  induction f with
  | root n t => rfl
  | child p n t ih => simp [Frame.depth, Frame.ancestors, ih]

theorem Quaternion.mul_identity_right (q : Quaternion) :
    q * Quaternion.identity = q := by
  cases q
  simp only [Quaternion.mulQ_eq, Quaternion.mul, Quaternion.identity,
    Quaternion.mk.injEq]
  refine ⟨?_, ?_, ?_, ?_⟩ <;> ring

theorem Quaternion.act_axis_z (Z W x y z : ℝ) :
    (Quaternion.mk 0 0 Z W).act ⟨x, y, z⟩ =
      ⟨(W ^ 2 - Z ^ 2) * x - 2 * W * Z * y,
       2 * W * Z * x + (W ^ 2 - Z ^ 2) * y,
       (W ^ 2 + Z ^ 2) * z⟩ := by
  simp only [Quaternion.act, Quaternion.mul, Quaternion.conj,
    Vector3.mk.injEq]
  refine ⟨?_, ?_, ?_⟩ <;> ring

/-- C3: calibrate_child creates a new child of the receiver whose
transformation_to_parent equals R ∘ P ∘ K (R the change-of-basis from the
reference pose's frame to the receiver, P the reference pose's
transformation, K the input isometry); in the concrete scenario of the
spec the calibrated child sits at translation (2,2,2) with identity
rotation (exactly, hence within 1e-5). -/
theorem calibrate_child_spec :
    (∀ (f : Frame) (n : String) (t : Vector3) (r : Quaternion) (rp : Pose),
        (f.calibrate_child n t r rp).parent = some f ∧
        (f.calibrate_child n t r rp).transformation_to_parent =
          Frame.changeOfBasis rp.frame f * rp.transformation *
            Isometry.from_parts t r) ∧
    calibrated6.transformation_to_parent.translation = ⟨2, 2, 2⟩ ∧
    calibrated6.transformation_to_parent.rotation = Quaternion.identity := by
  refine ⟨fun f n t r rp => ⟨rfl, rfl⟩, ?_, ?_⟩ <;>
  · simp only [calibrated6, refPose6, reference6, base6, Frame.new,
      Frame.add_child, Frame.add_pose, Frame.calibrate_child,
      Frame.transformation_to_parent, Frame.changeOfBasis, Frame.toRoot,
      Isometry.mulI_eq, Isometry.mul, Isometry.inverse, Isometry.identity,
      Isometry.from_parts, Quaternion.identity, Quaternion.mulQ_eq,
      Quaternion.mul, Quaternion.conj, Quaternion.act, Vector3.add_eq,
      Vector3.add, Vector3.neg_eq, Vector3.neg, Vector3.mk.injEq,
      Quaternion.mk.injEq]
    norm_num

/-- C1: in_frame re-expresses a pose in a target frame: the result is
anchored in the target and its transformation is C ∘ P.transformation
with C = (T_root←target)⁻¹ ∘ (T_root←frame) composed from the
transformation_to_parent chains; in the concrete scenario of the spec the
re-expressed pose has translation (1, −3, 1) and rotation Rz(−90°)
(exactly, hence within 1e-5). -/
theorem pose_in_frame_spec :
    (∀ (p : Pose) (target : Frame),
        (p.in_frame target).frame = target ∧
        (p.in_frame target).transformation =
          target.toRoot.inverse * p.frame.toRoot * p.transformation) ∧
    (pose5.in_frame frame2).transformation.translation = ⟨1, -3, 1⟩ ∧
    (pose5.in_frame frame2).transformation.rotation =
      Rotation.from_rpy 0 0 (-(Real.pi / 2)) := by
  have h2 : Real.sqrt 2 ^ 2 = 2 := Real.sq_sqrt (by norm_num)
  set s : ℝ := Real.sqrt 2 / 2 with hs_def
  have hs : s ^ 2 = 1 / 2 := by
    rw [hs_def, div_pow, h2]
    norm_num
  have hpi4 : Real.pi / 2 / 2 = Real.pi / 4 := by ring
  have hpi4n : -(Real.pi / 2) / 2 = -(Real.pi / 4) := by ring
  have hq2 : Rotation.from_rpy 0 0 (Real.pi / 2) = ⟨0, 0, s, s⟩ := by
    rw [Rotation.from_rpy_eq, hpi4]
    norm_num [Real.sin_pi_div_four, Real.cos_pi_div_four]
  have hqneg : Rotation.from_rpy 0 0 (-(Real.pi / 2)) = ⟨0, 0, -s, s⟩ := by
    rw [Rotation.from_rpy_eq, hpi4n]
    norm_num [Real.sin_pi_div_four, Real.cos_pi_div_four, Real.sin_neg,
      Real.cos_neg]
  have hconj : (Quaternion.mk 0 0 s s).conj = ⟨0, 0, -s, s⟩ := by
    simp [Quaternion.conj]
  have ha : ∀ x y z : ℝ,
      (Quaternion.mk 0 0 (-s) s).act ⟨x, y, z⟩ = ⟨y, -x, z⟩ := by
    intro x y z
    rw [Quaternion.act_axis_z]
    simp only [Vector3.mk.injEq]
    refine ⟨?_, ?_, ?_⟩
    · linear_combination (2 * y) * hs
    · linear_combination (-2 * x) * hs
    · linear_combination (2 * z) * hs
  have htr1 : frame1.toRoot = Isometry.from_parts ⟨1, 1, 1⟩
      Quaternion.identity := by
    simp only [frame1, base5, Frame.new, Frame.add_child, Frame.toRoot]
    exact Isometry.identity_mul _
  have htr2 : frame2.toRoot = Isometry.from_parts ⟨-2, 0, 0⟩ ⟨0, 0, s, s⟩ := by
    simp only [frame2, base5, Frame.new, Frame.add_child, Frame.toRoot]
    rw [Isometry.identity_mul, hq2]
  have hinv : (Isometry.from_parts ⟨-2, 0, 0⟩ ⟨0, 0, s, s⟩).inverse =
      Isometry.from_parts ⟨0, -2, 0⟩ ⟨0, 0, -s, s⟩ := by
    simp only [Isometry.inverse, Isometry.from_parts, hconj, ha,
      Vector3.neg_eq, Vector3.neg, Isometry.mk.injEq, Vector3.mk.injEq]
    norm_num
  have hres : (pose5.in_frame frame2).transformation =
      Isometry.from_parts ⟨1, -3, 1⟩ ⟨0, 0, -s, s⟩ := by
    show Frame.changeOfBasis frame1 frame2 * pose5.transformation = _
    unfold Frame.changeOfBasis
    rw [htr1, htr2, hinv]
    show Isometry.from_parts ⟨0, -2, 0⟩ ⟨0, 0, -s, s⟩ *
        Isometry.from_parts ⟨1, 1, 1⟩ Quaternion.identity *
        Isometry.from_parts ⟨0, 0, 0⟩ Quaternion.identity = _
    simp only [Isometry.mulI_eq, Isometry.mul, Isometry.from_parts, ha,
      Quaternion.mul_identity_right, Vector3.add_eq, Vector3.add,
      Isometry.mk.injEq, Vector3.mk.injEq]
    norm_num
  refine ⟨fun p target => ⟨rfl, rfl⟩, ?_, ?_⟩
  · rw [hres]
    rfl
  · rw [hres, hqneg]
    rfl

theorem Rotation.to_rpy_mk (X Y Z W : ℝ) :
    Rotation.to_rpy ⟨X, Y, Z, W⟩ =
      { roll := atan2 (2 * (W * X + Y * Z)) (1 - 2 * (X ^ 2 + Y ^ 2))
        pitch :=
          if 1 ≤ 2 * (W * Y - Z * X) then Real.pi / 2
          else if 2 * (W * Y - Z * X) ≤ -1 then -(Real.pi / 2)
          else Real.arcsin (2 * (W * Y - Z * X))
        yaw := atan2 (2 * (W * Z + X * Y)) (1 - 2 * (Y ^ 2 + Z ^ 2)) } :=
  rfl

theorem halfAngleSinp (sr cr sp cp sy cy : ℝ)
    (hR : sr ^ 2 + cr ^ 2 = 1) (hY : sy ^ 2 + cy ^ 2 = 1) :
    2 * ((cr * cp * cy + sr * sp * sy) * (cr * sp * cy + sr * cp * sy)
      - (cr * cp * sy - sr * sp * cy) * (sr * cp * cy - cr * sp * sy))
    = 2 * sp * cp := by
  linear_combination (2 * sp * cp * (sy ^ 2 + cy ^ 2)) * hR
    + (2 * sp * cp) * hY

theorem halfAngleRollNum (sr cr sp cp sy cy : ℝ)
    (hY : sy ^ 2 + cy ^ 2 = 1) :
    2 * ((cr * cp * cy + sr * sp * sy) * (sr * cp * cy - cr * sp * sy)
      + (cr * sp * cy + sr * cp * sy) * (cr * cp * sy - sr * sp * cy))
    = 2 * sr * cr * (cp ^ 2 - sp ^ 2) := by
  linear_combination (2 * sr * cr * (cp ^ 2 - sp ^ 2)) * hY

theorem halfAngleRollDen (sr cr sp cp sy cy : ℝ)
    (hR : sr ^ 2 + cr ^ 2 = 1) (hP : sp ^ 2 + cp ^ 2 = 1)
    (hY : sy ^ 2 + cy ^ 2 = 1) :
    1 - 2 * ((sr * cp * cy - cr * sp * sy) ^ 2
      + (cr * sp * cy + sr * cp * sy) ^ 2)
    = (cr ^ 2 - sr ^ 2) * (cp ^ 2 - sp ^ 2) := by
  linear_combination (-(cp ^ 2 + sp ^ 2)) * hR + (-1 : ℝ) * hP
    + (-2 * (sr ^ 2 * cp ^ 2 + cr ^ 2 * sp ^ 2)) * hY

theorem halfAngleYawNum (sr cr sp cp sy cy : ℝ)
    (hR : sr ^ 2 + cr ^ 2 = 1) :
    2 * ((cr * cp * cy + sr * sp * sy) * (cr * cp * sy - sr * sp * cy)
      + (sr * cp * cy - cr * sp * sy) * (cr * sp * cy + sr * cp * sy))
    = 2 * sy * cy * (cp ^ 2 - sp ^ 2) := by
  linear_combination (2 * sy * cy * (cp ^ 2 - sp ^ 2)) * hR

theorem halfAngleYawDen (sr cr sp cp sy cy : ℝ)
    (hR : sr ^ 2 + cr ^ 2 = 1) (hP : sp ^ 2 + cp ^ 2 = 1)
    (hY : sy ^ 2 + cy ^ 2 = 1) :
    1 - 2 * ((cr * sp * cy + sr * cp * sy) ^ 2
      + (cr * cp * sy - sr * sp * cy) ^ 2)
    = (cy ^ 2 - sy ^ 2) * (cp ^ 2 - sp ^ 2) := by
  linear_combination (-2 * (sp ^ 2 * cy ^ 2 + cp ^ 2 * sy ^ 2)) * hR
    + (-1 : ℝ) * hP + (-(cp ^ 2 + sp ^ 2)) * hY

/-- Counterexample for C6: the claim quantifies over all roll, pitch and
yaw, but at (0, 0, 2π) — whose pitch 0 is nowhere near ±π/2 — the
canonical-branch to_rpy returns yaw 0, which is not within 1e-5 of 2π. -/
theorem rpy_round_trip_cex :
    ¬ |(Rotation.to_rpy (Rotation.from_rpy 0 0 (2 * Real.pi))).yaw
        - 2 * Real.pi| ≤ 1e-5 := by
  have hq : Rotation.from_rpy 0 0 (2 * Real.pi) = ⟨0, 0, 0, -1⟩ := by
    rw [Rotation.from_rpy_eq]
    have h2 : 2 * Real.pi / 2 = Real.pi := by ring
    rw [h2]
    norm_num [Real.sin_pi, Real.cos_pi, Real.sin_zero, Real.cos_zero]
  rw [hq, Rotation.to_rpy_mk]
  have h0 : atan2 (2 * ((-1) * 0 + 0 * 0)) (1 - 2 * ((0 : ℝ) ^ 2 + 0 ^ 2))
      = atan2 0 1 := by norm_num
  show ¬ |atan2 (2 * ((-1) * 0 + 0 * 0)) (1 - 2 * ((0 : ℝ) ^ 2 + 0 ^ 2))
      - 2 * Real.pi| ≤ 1e-5
  rw [h0, atan2_zero_one]
  intro hc
  rw [abs_le] at hc
  have h3 := Real.pi_gt_three
  have h4 := hc.1
  norm_num at h4
  linarith

/-- C6 (amended): the RPY round-trip from_rpy ∘ to_rpy is the identity
when, in addition to pitch being away from gimbal lock, the input angles
lie in the canonical branch that to_rpy can return: roll and yaw in
(−π, π] and pitch in (−π/2, π/2); the recovery is then exact, hence
within 1e-5. -/
theorem rpy_round_trip_restricted (r p y : ℝ)
    (hr : r ∈ Set.Ioc (-Real.pi) Real.pi)
    (hp : p ∈ Set.Ioo (-(Real.pi / 2)) (Real.pi / 2))
    (hy : y ∈ Set.Ioc (-Real.pi) Real.pi) :
    Rotation.to_rpy (Rotation.from_rpy r p y) = ⟨r, p, y⟩ := by
  obtain ⟨hp1, hp2⟩ := hp
  have hR := Real.sin_sq_add_cos_sq (r / 2)
  have hP := Real.sin_sq_add_cos_sq (p / 2)
  have hY := Real.sin_sq_add_cos_sq (y / 2)
  have hhr : 2 * (r / 2) = r := by ring
  have hhp : 2 * (p / 2) = p := by ring
  have hhy : 2 * (y / 2) = y := by ring
  have hsin_r := Real.sin_two_mul (r / 2)
  rw [hhr] at hsin_r
  have hcos_r := Real.cos_two_mul' (r / 2)
  rw [hhr] at hcos_r
  have hsin_p := Real.sin_two_mul (p / 2)
  rw [hhp] at hsin_p
  have hcos_p := Real.cos_two_mul' (p / 2)
  rw [hhp] at hcos_p
  have hsin_y := Real.sin_two_mul (y / 2)
  rw [hhy] at hsin_y
  have hcos_y := Real.cos_two_mul' (y / 2)
  rw [hhy] at hcos_y
  have k1 := halfAngleSinp (Real.sin (r / 2)) (Real.cos (r / 2))
    (Real.sin (p / 2)) (Real.cos (p / 2)) (Real.sin (y / 2))
    (Real.cos (y / 2)) hR hY
  rw [← hsin_p] at k1
  have k2 := halfAngleRollNum (Real.sin (r / 2)) (Real.cos (r / 2))
    (Real.sin (p / 2)) (Real.cos (p / 2)) (Real.sin (y / 2))
    (Real.cos (y / 2)) hY
  rw [← hsin_r, ← hcos_p] at k2
  have k3 := halfAngleRollDen (Real.sin (r / 2)) (Real.cos (r / 2))
    (Real.sin (p / 2)) (Real.cos (p / 2)) (Real.sin (y / 2))
    (Real.cos (y / 2)) hR hP hY
  rw [← hcos_r, ← hcos_p] at k3
  have k4 := halfAngleYawNum (Real.sin (r / 2)) (Real.cos (r / 2))
    (Real.sin (p / 2)) (Real.cos (p / 2)) (Real.sin (y / 2))
    (Real.cos (y / 2)) hR
  rw [← hsin_y, ← hcos_p] at k4
  have k5 := halfAngleYawDen (Real.sin (r / 2)) (Real.cos (r / 2))
    (Real.sin (p / 2)) (Real.cos (p / 2)) (Real.sin (y / 2))
    (Real.cos (y / 2)) hR hP hY
  rw [← hcos_y, ← hcos_p] at k5
  have hcp : 0 < Real.cos p := Real.cos_pos_of_mem_Ioo ⟨hp1, hp2⟩
  have hsplt : Real.sin p < 1 := by
    have h1 : Real.sin p < Real.sin (Real.pi / 2) := by
      apply Real.strictMonoOn_sin ⟨hp1.le, hp2.le⟩
        ⟨by linarith [Real.pi_pos], le_refl _⟩ hp2
    rwa [Real.sin_pi_div_two] at h1
  have hsgt : -1 < Real.sin p := by
    have h1 : Real.sin (-(Real.pi / 2)) < Real.sin p := by
      apply Real.strictMonoOn_sin
        ⟨le_refl _, by linarith [Real.pi_pos]⟩ ⟨hp1.le, hp2.le⟩ hp1
    rwa [Real.sin_neg, Real.sin_pi_div_two] at h1
  rw [Rotation.from_rpy_eq, Rotation.to_rpy_mk, k1, k2, k3, k4, k5,
    atan2_cos_sin (Real.cos p) r hcp hr,
    atan2_cos_sin (Real.cos p) y hcp hy,
    if_neg (by linarith), if_neg (by linarith),
    Real.arcsin_sin hp1.le hp2.le]

/-- Witness for C6 (amended): the round-trip at (0, 0, 0). -/
theorem rpy_round_trip_restricted_witness :
    Rotation.to_rpy (Rotation.from_rpy 0 0 0) = ⟨0, 0, 0⟩ :=
  rpy_round_trip_restricted 0 0 0
    ⟨by linarith [Real.pi_pos], Real.pi_pos.le⟩
    ⟨by linarith [Real.pi_pos], by linarith [Real.pi_pos]⟩
    ⟨by linarith [Real.pi_pos], Real.pi_pos.le⟩

/-- C10: the Quaternion value type performs no normalization: the
constructor stores arbitrary components, including non-unit ones such as
(1,2,3,4), and the accessors and list/tuple views return exactly the
constructor's arguments. -/
theorem quaternion_value_type (x y z w : ℝ) :
    (Quaternion.mk x y z w).x = x ∧ (Quaternion.mk x y z w).y = y ∧
    (Quaternion.mk x y z w).z = z ∧ (Quaternion.mk x y z w).w = w ∧
    (Quaternion.mk x y z w).as_list = [x, y, z, w] ∧
    (Quaternion.mk x y z w).as_tuple = (x, y, z, w) ∧
    (Quaternion.mk 1 2 3 4).as_list = [1, 2, 3, 4] :=
  ⟨rfl, rfl, rfl, rfl, rfl, rfl, rfl⟩

end CartesianTree
